import Mathlib

/-!
# honggfuzz, `linux/arch.c`: the target-process supervisor

A shallow embedding of the parts of `linux/arch.c` that build the argument
vector of the launched target (`arch_launchChild`), decide whether the tracer
attaches (`arch_shouldAttach`), gate the session on the kernel release
(`arch_archInit`), drain the queued wait events (`arch_checkWait`) and
reconcile the sanitizer report file once an iteration is over
(`arch_reapChild`).

Conventions of the embedding:

* a C string is the list of its bytes before the terminating NUL (`CStr`),
  one `Char` standing for one byte;
* `pid_t`, `int` and `errno` values are `Int`; `unsigned long` values are
  `Nat`, saturated at an explicit `ULONG_MAX` where `strtoul` does so;
* system calls are inputs of the model: `waitpid` is the list of the results
  it hands out, `uname` is the release string, the filesystem is a predicate
  on paths;
* calls into collaborators that live outside this file (`arch_ptraceAnalyze`,
  `arch_ptraceExitAnalyze`, `arch_perfAnalyze`, `sancov_Analyze`, `unlink`)
  are recorded, in order, with their arguments.
-/

namespace Honggfuzz

/-! ## C strings and the libc routines the code calls -/

/-- A C string: the bytes that precede the terminating NUL. -/
abbrev CStr := List Char

/-- The libc `strcmp`: zero exactly on equal strings, otherwise only the sign
is meaningful (the first differing bytes compared as unsigned). -/
def strcmp : CStr → CStr → Int
  | [], [] => 0
  | [], _ :: _ => -1
  | _ :: _, [] => 1
  | a :: as, b :: bs =>
    if a = b then strcmp as bs else if a.toNat < b.toNat then -1 else 1

/-- Does `hay` begin with the bytes of `needle`? -/
def startsWith : CStr → CStr → Bool
  | _, [] => true
  | [], _ :: _ => false
  | h :: hs, n :: ns => h == n && startsWith hs ns

/-- The libc `strstr hay needle`, as the offset of the first occurrence of
`needle` in `hay` (`none` for the NULL result). -/
def strstr (needle : CStr) : CStr → Option Nat
  | [] => if startsWith [] needle then some 0 else none
  | h :: t =>
    if startsWith (h :: t) needle then some 0 else (strstr needle t).map (· + 1)

/-- What `snprintf buf size fmt ...` leaves in `buf` when the formatted text is
`out`: at most `size - 1` bytes of it, and nothing at all for `size = 0`. -/
def snprintf (buf : CStr) (size : Nat) (out : CStr) : CStr :=
  if size = 0 then buf else out.take (size - 1)

/-- The `%d` conversion of `printf`. -/
def fmt_d (n : Int) : CStr :=
  if n < 0 then '-' :: Nat.toDigits 10 n.natAbs else Nat.toDigits 10 n.toNat

/-- The libc `isspace` in the C locale. -/
def isspace (c : Char) : Bool :=
  c == ' ' || c == '\t' || c == '\n' || c == '\x0b' || c == '\x0c' || c == '\r'

/-- The libc `isdigit`. -/
def isdigit (c : Char) : Bool :=
  decide (48 ≤ c.toNat) && decide (c.toNat ≤ 57)

/-- The digit loop of `strtoul` in base 10: accumulates the leading digits of
the string and returns the value with the unread rest. -/
def scanDigits : CStr → Nat → Nat × CStr
  | [], acc => (acc, [])
  | c :: cs, acc =>
    if isdigit c then scanDigits cs (acc * 10 + (c.toNat - 48)) else (acc, c :: cs)

/-- The optional sign `strtoul` accepts after the white space. -/
def scanSign : CStr → Bool × CStr
  | [] => (false, [])
  | c :: t => if c = '-' then (true, t) else if c = '+' then (false, t) else (false, c :: t)

/-- The libc `strtoul s &end 10` for an `unsigned long` whose largest value is
`ULONG_MAX`: white space is skipped, a sign is accepted, the digits are read,
an overflowing value saturates, a negated one wraps, and without any digit the
result is `0` with `end = s`. Returns the value and `end`. -/
def strtoul (ULONG_MAX : Nat) (s : CStr) : Nat × CStr :=
  let body := scanSign (s.dropWhile isspace)
  match body.2 with
  | [] => (0, s)
  | c :: cs =>
    if isdigit c then
      let r := scanDigits (c :: cs) 0
      if ULONG_MAX < r.1 then (ULONG_MAX, r.2)
      else if body.1 then ((ULONG_MAX + 1 - r.1) % (ULONG_MAX + 1), r.2)
      else (r.1, r.2)
    else (0, s)

/-! ## Status words of `waitpid` (the glibc macros) and `errno` values -/

/-- `WTERMSIG(status)`, that is `status & 0x7f`. -/
def WTERMSIG (status : Int) : Int := status % 128

/-- `WIFEXITED(status)`, that is `WTERMSIG(status) == 0`. -/
def WIFEXITED (status : Int) : Bool := WTERMSIG status == 0

/-- `WIFSIGNALED(status)`, that is
`((signed char) ((status & 0x7f) + 1) >> 1) > 0`. -/
def WIFSIGNALED (status : Int) : Bool :=
  let v := WTERMSIG status + 1
  let sc := if 128 ≤ v then v - 256 else v
  decide (0 < sc / 2)

/-- `WIFSTOPPED(status)`, that is `(status & 0xff) == 0x7f`. -/
def WIFSTOPPED (status : Int) : Bool := status % 256 == 127

/-- The Linux `EINTR`. -/
def EINTR : Int := 4

/-- The Linux `ECHILD`. -/
def ECHILD : Int := 10

/-! ## Session and worker data -/

/-- The fields of `honggfuzz_t` that `linux/arch.c` reads in the modelled
functions. `cmdline` holds the entries of the NULL-terminated array that come
before the NULL; `linux_pid` is `hfuzz->linux.pid`. -/
structure honggfuzz_t where
  cmdline : List CStr
  fuzzStdin : Bool
  persistent : Bool
  enableSanitizers : Bool
  workDir : CStr
  dynFileMethod : Nat
  linux_pid : Int

/-- The fields of `fuzzer_t` that the modelled functions read or write.
`attachedPid` is `fuzzer->linux.attachedPid`; `backtrace` is the 64-bit hash,
zero when no backtrace was captured. -/
structure fuzzer_t where
  pid : Int
  persistentPid : Int
  attachedPid : Int
  backtrace : Nat

/-- The values of the `dynFileMethod_t` bits that `arch_archInit` tests; the
enumeration is declared in `libcommon/common.h`. -/
structure DynFileBits where
  NONE : Nat
  BTS_BLOCK : Nat
  BTS_EDGE : Nat
  IPT_BLOCK : Nat

/-! ## `arch_shouldAttach` -/

/-- The C function `arch_shouldAttach`. -/
def arch_shouldAttach (hfuzz : honggfuzz_t) (fuzzer : fuzzer_t) : Bool :=
  if hfuzz.persistent && fuzzer.attachedPid == fuzzer.pid then false
  else if decide (hfuzz.linux_pid > 0) && fuzzer.attachedPid == hfuzz.linux_pid then false
  else true

/-! ## `arch_launchChild`: the argument vector -/

/-- The `ARGS_MAX` of `arch_launchChild`. -/
def ARGS_MAX : Nat := 512

/-- The Linux `PATH_MAX`. -/
def PATH_MAX : Nat := 4096

/-- What an entry of the local array `args` points to: the `fileName`
parameter, the local buffer `argData`, or entry `x` of `hfuzz->cmdline`. -/
inductive ArgPtr where
  | fileName
  | argData
  | cmdline (x : Nat)
  deriving DecidableEq, Repr

/-- The `for` loop of `arch_launchChild`, entered at index `x` with `rest` the
template entries from `x` on, `args` the pointers stored so far and `argData`
the current content of the buffer. `placeholder` is `_HF_FILE_PLACEHOLDER`.
Returns the filled part of `args` and the final `argData`. -/
def arch_launchChild_loop (placeholder : CStr) (hfuzz : honggfuzz_t) (fileName : CStr) :
    Nat → List CStr → List ArgPtr → CStr → List ArgPtr × CStr
  | _, [], args, argData => (args, argData)
  | x, c :: rest, args, argData =>
    if x < ARGS_MAX then
      if !hfuzz.fuzzStdin && !hfuzz.persistent && strcmp c placeholder == 0 then
        arch_launchChild_loop placeholder hfuzz fileName (x + 1) rest
          (args ++ [ArgPtr.fileName]) argData
      else if !hfuzz.fuzzStdin && !hfuzz.persistent && (strstr placeholder c).isSome then
        let off := (strstr placeholder c).getD 0
        arch_launchChild_loop placeholder hfuzz fileName (x + 1) rest
          (args ++ [ArgPtr.argData]) (snprintf argData PATH_MAX (c.take off ++ fileName))
      else
        arch_launchChild_loop placeholder hfuzz fileName (x + 1) rest
          (args ++ [ArgPtr.cmdline x]) argData
    else (args, argData)

/-- The string an `args` entry designates when `execve` reads the vector. -/
def derefArg (hfuzz : honggfuzz_t) (fileName argData : CStr) : ArgPtr → CStr
  | ArgPtr.fileName => fileName
  | ArgPtr.argData => argData
  | ArgPtr.cmdline x => hfuzz.cmdline.getD x []

/-- The argument vector `arch_launchChild` hands to `execve` (the strings
before the terminating NULL): the loop runs from index 0 over the template with
`argData` zero-filled, then every stored pointer is read. -/
def arch_launchChild_argv (placeholder : CStr) (hfuzz : honggfuzz_t) (fileName : CStr) :
    List CStr :=
  let r := arch_launchChild_loop placeholder hfuzz fileName 0 hfuzz.cmdline [] []
  r.1.map (derefArg hfuzz fileName r.2)

/-! ## `arch_archInit`: the kernel-version gate -/

/-- How the kernel-version block of `arch_archInit` ends. -/
inductive GateResult where
  /-- No coverage method selected: the block is not entered. -/
  | skipped
  /-- The call `uname` failed: `PLOG_F`, `return false`. -/
  | unameFailed
  /-- No dot after the major number: `LOG_F`, `return false`. -/
  | unsupported
  /-- Release below the minimum: `LOG_E`, `return false`. -/
  | tooOld
  /-- The release is accepted and `arch_perfInit` is called. -/
  | passed
  deriving DecidableEq, Repr

/-- The minimum `(checkMajor, checkMinor)` that `arch_archInit` picks for the
selected method. -/
def checkVersion (bits : DynFileBits) (dynFileMethod : Nat) : Nat × Nat :=
  if dynFileMethod &&& bits.BTS_BLOCK != 0 || dynFileMethod &&& bits.BTS_EDGE != 0
      || dynFileMethod &&& bits.IPT_BLOCK != 0 then (4, 1) else (3, 7)

/-- The block `if (hfuzz->dynFileMethod != _HF_DYNFILE_NONE) { ... }` of
`arch_archInit` up to the call of `arch_perfInit`. `uname` is the release
string the call `uname` reports, `none` when it fails. -/
def arch_archInit_kernelGate (bits : DynFileBits) (ULONG_MAX : Nat) (hfuzz : honggfuzz_t)
    (uname : Option CStr) : GateResult :=
  if hfuzz.dynFileMethod != bits.NONE then
    let check := checkVersion bits hfuzz.dynFileMethod
    match uname with
    | none => GateResult.unameFailed
    | some release =>
      let maj := strtoul ULONG_MAX release
      match maj.2 with
      | [] => GateResult.unsupported
      | c :: p =>
        if c ≠ '.' then GateResult.unsupported
        else
          let mnr := strtoul ULONG_MAX p
          if maj.1 < check.1 || (maj.1 == check.1 && mnr.1 < check.2) then GateResult.tooOld
          else GateResult.passed
  else GateResult.skipped

/-! ## `arch_checkWait`: draining the queued wait events -/

/-- One result of `waitpid(-1, &status, __WALL | __WNOTHREAD | WNOHANG)`: the
returned `pid`, the `errno` it leaves and the `status` it stores. -/
structure WaitRet where
  pid : Int
  errno : Int
  status : Int
  deriving DecidableEq, Repr

/-- How a run of `arch_checkWait` ends: it returns a flag, or `PLOG_F` ends the
process. -/
inductive Outcome where
  | returned (complete : Bool)
  | fatal
  deriving DecidableEq, Repr

/-- The worker state `arch_checkWait` works on, with the record of the calls of
`arch_ptraceAnalyze` made so far, each as `(status, pid)`. -/
structure ReapState where
  fuzzer : fuzzer_t
  analyzed : List (Int × Int)

/-- Modelled from the spec: `arch_ptraceAnalyze` is defined in
`linux/ptrace_utils.c`; the spec gives it as the consumed interface
`analyzeEvent(config, status, pid, worker)` of the crash classifier. The call is
recorded with its `status` and `pid`; the classifier leaves `fuzzer->pid` and
`fuzzer->persistentPid` alone. -/
def arch_ptraceAnalyze (status pid : Int) (s : ReapState) : ReapState :=
  { s with analyzed := s.analyzed ++ [(status, pid)] }

/-- The `for (;;)` loop of `arch_checkWait` with `ptracePid` and `childPid` as
computed before it, run on the results `waitpid` hands out in order. `none`
means that the loop asks for a further result after the listed ones. -/
def arch_checkWait_loop (hfuzz : honggfuzz_t) (ptracePid childPid : Int) :
    ReapState → List WaitRet → Option (Outcome × ReapState)
  | _, [] => none
  | s, r :: rs =>
    if r.pid = 0 then some (Outcome.returned false, s)
    else if r.pid = -1 ∧ r.errno = EINTR then arch_checkWait_loop hfuzz ptracePid childPid s rs
    else if r.pid = -1 ∧ r.errno = ECHILD then some (Outcome.returned true, s)
    else if r.pid = -1 then some (Outcome.fatal, s)
    else if hfuzz.persistent = true ∧ r.pid = s.fuzzer.persistentPid
        ∧ (WIFEXITED r.status = true ∨ WIFSIGNALED r.status = true) then
      let s1 := arch_ptraceAnalyze r.status r.pid s
      some (Outcome.returned true, { s1 with fuzzer := { s1.fuzzer with persistentPid := 0 } })
    else if ptracePid = childPid then
      arch_checkWait_loop hfuzz ptracePid childPid (arch_ptraceAnalyze r.status r.pid s) rs
    else if r.pid = childPid ∧ (WIFEXITED r.status = true ∨ WIFSIGNALED r.status = true) then
      some (Outcome.returned true, s)
    else if r.pid = childPid then arch_checkWait_loop hfuzz ptracePid childPid s rs
    else arch_checkWait_loop hfuzz ptracePid childPid (arch_ptraceAnalyze r.status r.pid s) rs

/-- The pid the tracer monitors: `(hfuzz->linux.pid > 0) ? hfuzz->linux.pid :
fuzzer->pid`. -/
def ptracePidOf (hfuzz : honggfuzz_t) (fuzzer : fuzzer_t) : Int :=
  if hfuzz.linux_pid > 0 then hfuzz.linux_pid else fuzzer.pid

/-- The C function `arch_checkWait`. -/
def arch_checkWait (hfuzz : honggfuzz_t) (s : ReapState) (waits : List WaitRet) :
    Option (Outcome × ReapState) :=
  arch_checkWait_loop hfuzz (ptracePidOf hfuzz s.fuzzer) s.fuzzer.pid s waits

/-! ## `arch_reapChild`: after the event loop -/

/-- The calls `arch_reapChild` makes once its event loop is left. -/
inductive ReapAction where
  | unlink (path : CStr)
  | ptraceExitAnalyze (pid : Int)
  | perfAnalyze
  | sancovAnalyze
  deriving DecidableEq, Repr

/-- The buffer `crashReport` after
`snprintf(crashReport, sizeof(crashReport), "%s/%s.%d", workDir, kLOGPREFIX, ptracePid)`. -/
def crashReport (kLOGPREFIX : CStr) (hfuzz : honggfuzz_t) (fuzzer : fuzzer_t) : CStr :=
  snprintf [] PATH_MAX
    (hfuzz.workDir ++ '/' :: kLOGPREFIX ++ '.' :: fmt_d (ptracePidOf hfuzz fuzzer))

/-- The part of `arch_reapChild` that follows the event loop, as the list of
the calls it makes. `kLOGPREFIX` is the macro of that name, `files_exists` the
answer of the helper of that name for a path, `fuzzer` the worker as the loop
left it. -/
def arch_reapChild_afterLoop (kLOGPREFIX : CStr) (files_exists : CStr → Bool)
    (hfuzz : honggfuzz_t) (fuzzer : fuzzer_t) : List ReapAction :=
  (if hfuzz.enableSanitizers then
    if files_exists (crashReport kLOGPREFIX hfuzz fuzzer) then
      if fuzzer.backtrace != 0 then [ReapAction.unlink (crashReport kLOGPREFIX hfuzz fuzzer)]
      else [ReapAction.ptraceExitAnalyze (ptracePidOf hfuzz fuzzer)]
    else []
  else []) ++ [ReapAction.perfAnalyze, ReapAction.sancovAnalyze]

/-! ## Notions of the specification the theorems compare the code with -/

/-- The number a string of decimal digits denotes. -/
def decimalValue (ds : CStr) : Nat :=
  ds.foldl (fun acc c => acc * 10 + (c.toNat - 48)) 0

/-- Lexicographic "below" on `(major, minor)` pairs. -/
def versionBelow (v w : Nat × Nat) : Prop :=
  v.1 < w.1 ∨ (v.1 = w.1 ∧ v.2 < w.2)

/-- Is the retrieval result an interrupted one (`-1` with `EINTR`)? -/
def isInterrupted (r : WaitRet) : Bool :=
  decide (r.pid = -1 ∧ r.errno = EINTR)

/-- An event `(status, pid)` as the crash classifier receives it. -/
def eventOf (r : WaitRet) : Int × Int := (r.status, r.pid)

/-- Is the retrieval result the exit or the signal termination of `childPid`? -/
def isChildEnd (childPid : Int) (r : WaitRet) : Bool :=
  decide (r.pid = childPid) && (WIFEXITED r.status || WIFSIGNALED r.status)

/-- The pointer the loop of `arch_launchChild` stores for the template entry
`c` found at index `x`. -/
def argPtrFor (placeholder : CStr) (hfuzz : honggfuzz_t) (x : Nat) (c : CStr) : ArgPtr :=
  if !hfuzz.fuzzStdin && !hfuzz.persistent && strcmp c placeholder == 0 then ArgPtr.fileName
  else if !hfuzz.fuzzStdin && !hfuzz.persistent && (strstr placeholder c).isSome then
    ArgPtr.argData
  else ArgPtr.cmdline x

/-- The pointers the loop of `arch_launchChild` stores for the entries `rest`
found from index `x` on, up to the cap. -/
def ptrsFrom (placeholder : CStr) (hfuzz : honggfuzz_t) : Nat → List CStr → List ArgPtr
  | _, [] => []
  | x, c :: rest =>
    if x < ARGS_MAX then argPtrFor placeholder hfuzz x c :: ptrsFrom placeholder hfuzz (x + 1) rest
    else []

/-- Does the loop of `arch_launchChild` write `argData` for the entry `c`? -/
def writesArgData (placeholder : CStr) (hfuzz : honggfuzz_t) (c : CStr) : Bool :=
  !(!hfuzz.fuzzStdin && !hfuzz.persistent && strcmp c placeholder == 0)
    && (!hfuzz.fuzzStdin && !hfuzz.persistent && (strstr placeholder c).isSome)

/-- The upstream value of `_HF_FILE_PLACEHOLDER`. -/
def upstreamPlaceholder : CStr := "___FILE___".toList

/-- The upstream values of the `dynFileMethod_t` bits. -/
def upstreamBits : DynFileBits :=
  { NONE := 0, BTS_BLOCK := 8, BTS_EDGE := 16, IPT_BLOCK := 32 }


/-- A file-based, non-persistent session without external pid, used to
instantiate the theorems. -/
def sessionOwnChild : honggfuzz_t :=
  { cmdline := ["/bin/target".toList, "___FILE___".toList], fuzzStdin := false,
    persistent := false, enableSanitizers := true, workDir := "/tmp/work".toList,
    dynFileMethod := 2, linux_pid := 0 }

/-- A session that monitors the external pid 500, used to instantiate the
theorems. -/
def sessionExternal : honggfuzz_t :=
  { sessionOwnChild with linux_pid := 500 }

/-- A worker whose child is pid 100, with no event classified yet. -/
def worker100 : ReapState :=
  { fuzzer := { pid := 100, persistentPid := 0, attachedPid := 0, backtrace := 0 },
    analyzed := [] }

/-- A session whose template carries the placeholder inside a larger
argument, followed by more bytes. -/
def sessionInToken : honggfuzz_t :=
  { sessionOwnChild with cmdline := ["/bin/target".toList, "--in=___FILE___.txt".toList] }

/-- A session whose template has the placeholder as a whole argument and also
inside another argument. -/
def sessionBoth : honggfuzz_t :=
  { sessionOwnChild with
    cmdline := ["/bin/target".toList, "___FILE___".toList, "--in=___FILE___".toList] }

/-- A session whose template has the placeholder as a whole argument and 514
arguments in all. -/
def sessionLong : honggfuzz_t :=
  { sessionOwnChild with cmdline := "___FILE___".toList :: List.replicate 513 "-v".toList }

/-- The upstream value of `kLOGPREFIX`. -/
def upstreamLogPrefix : CStr := "HF.sanitizer.log".toList

/-- A filesystem in which exactly the sanitizer report of pid 100 exists in
`/tmp/work`. -/
def reportOf100Exists (path : CStr) : Bool :=
  path == "/tmp/work/HF.sanitizer.log.100".toList

/-! ## Theorems -/

theorem checkWait_loop_interrupted (hfuzz : honggfuzz_t) (pp cp : Int) (s : ReapState)
    (r : WaitRet) (rs : List WaitRet) (h : isInterrupted r = true) :
    arch_checkWait_loop hfuzz pp cp s (r :: rs) = arch_checkWait_loop hfuzz pp cp s rs := by
  have h1 : r.pid = -1 ∧ r.errno = EINTR := by simpa [isInterrupted] using h
  have h0 : r.pid ≠ 0 := by rw [h1.1]; decide
  simp [arch_checkWait_loop, h0, h1.1, h1.2]

theorem checkWait_loop_filter (hfuzz : honggfuzz_t) (pp cp : Int) (waits : List WaitRet) :
    ∀ s : ReapState,
      arch_checkWait_loop hfuzz pp cp s (waits.filter (fun r => !isInterrupted r))
        = arch_checkWait_loop hfuzz pp cp s waits := by
  induction waits with
  | nil => intro s; rfl
  | cons r rs ih =>
    intro s
    by_cases h : isInterrupted r = true
    · rw [checkWait_loop_interrupted hfuzz pp cp s r rs h]
      simp [List.filter, h, ih]
    · have hf : isInterrupted r = false := by simpa using h
      simp only [List.filter, hf, Bool.not_false]
      simp only [arch_checkWait_loop, ih]

/-- Claim C4. `arch_shouldAttach` returns false exactly when persistent mode is
on and the attached pid is the current child pid, or an external pid is
configured (`linux.pid > 0`) and the attached pid equals it; in every other
case it returns true. -/
theorem arch_shouldAttach_spec (hfuzz : honggfuzz_t) (fuzzer : fuzzer_t) :
    (arch_shouldAttach hfuzz fuzzer = false ↔
      (hfuzz.persistent = true ∧ fuzzer.attachedPid = fuzzer.pid)
        ∨ (hfuzz.linux_pid > 0 ∧ fuzzer.attachedPid = hfuzz.linux_pid))
    ∧ (¬ ((hfuzz.persistent = true ∧ fuzzer.attachedPid = fuzzer.pid)
        ∨ (hfuzz.linux_pid > 0 ∧ fuzzer.attachedPid = hfuzz.linux_pid))
      → arch_shouldAttach hfuzz fuzzer = true) := by
  have key : arch_shouldAttach hfuzz fuzzer = false ↔
      (hfuzz.persistent = true ∧ fuzzer.attachedPid = fuzzer.pid)
        ∨ (hfuzz.linux_pid > 0 ∧ fuzzer.attachedPid = hfuzz.linux_pid) := by
    unfold arch_shouldAttach
    by_cases h1 : hfuzz.persistent = true ∧ fuzzer.attachedPid = fuzzer.pid
    · simp [h1.1, h1.2]
    · by_cases h2 : hfuzz.linux_pid > 0 ∧ fuzzer.attachedPid = hfuzz.linux_pid
      · have h2a := h2.1
        have h2b := h2.2
        simp [h2a, h2b]
      · have e1 : (hfuzz.persistent && fuzzer.attachedPid == fuzzer.pid) = false := by
          simpa using h1
        have e2 : (decide (hfuzz.linux_pid > 0) && fuzzer.attachedPid == hfuzz.linux_pid)
            = false := by
          simpa using h2
        simp only [e1, e2]
        simp [h1, h2]
  refine ⟨key, fun hn => ?_⟩
  cases hv : arch_shouldAttach hfuzz fuzzer with
  | true => rfl
  | false => exact absurd (key.mp hv) hn

/-- Witness of C4: a persistent session whose tracer is attached to the current
child does not attach again, and one attached to another pid does. -/
theorem arch_shouldAttach_witness :
    arch_shouldAttach { sessionOwnChild with persistent := true }
        { worker100.fuzzer with attachedPid := 100 } = false
    ∧ arch_shouldAttach { sessionOwnChild with persistent := true }
        { worker100.fuzzer with attachedPid := 99 } = true :=
  ⟨(arch_shouldAttach_spec { sessionOwnChild with persistent := true }
      { worker100.fuzzer with attachedPid := 100 }).1.mpr (Or.inl ⟨rfl, rfl⟩),
    (arch_shouldAttach_spec { sessionOwnChild with persistent := true }
      { worker100.fuzzer with attachedPid := 99 }).2 (by decide)⟩

/-- Claim C7. `arch_checkWait` is insensitive to interrupted retrievals: dropping
every `EINTR` result from the sequence of retrieval results leaves the whole
result unchanged (the returned flag, the classified `(status, pid)` pairs, the
worker state with its `persistentPid`), and so does inserting any run of
`EINTR` results at any place of the sequence. -/
theorem arch_checkWait_eintr_insensitive (hfuzz : honggfuzz_t) (s : ReapState) :
    (∀ waits : List WaitRet,
      arch_checkWait hfuzz s (waits.filter (fun r => !isInterrupted r))
        = arch_checkWait hfuzz s waits)
    ∧ (∀ (before after : List WaitRet) (statuses : List Int),
      arch_checkWait hfuzz s
          (before ++ statuses.map (fun st => WaitRet.mk (-1) EINTR st) ++ after)
        = arch_checkWait hfuzz s (before ++ after)) := by
  have hf : ∀ waits : List WaitRet,
      arch_checkWait hfuzz s (waits.filter (fun r => !isInterrupted r))
        = arch_checkWait hfuzz s waits := fun waits =>
    checkWait_loop_filter hfuzz _ _ waits s
  refine ⟨hf, fun before after statuses => ?_⟩
  rw [← hf (before ++ statuses.map (fun st => WaitRet.mk (-1) EINTR st) ++ after),
    ← hf (before ++ after)]
  congr 1
  have hnil : (statuses.map (fun st => WaitRet.mk (-1) EINTR st)).filter
      (fun r => !isInterrupted r) = [] := by
    rw [List.filter_eq_nil_iff]
    intro r hr
    obtain ⟨st, _, rfl⟩ := List.mem_map.mp hr
    simp [isInterrupted]
  simp [List.filter_append, hnil]

theorem checkWait_loop_echild (hfuzz : honggfuzz_t) (pp cp : Int) (s : ReapState)
    (status : Int) (rest : List WaitRet) :
    arch_checkWait_loop hfuzz pp cp s (WaitRet.mk (-1) ECHILD status :: rest)
      = some (Outcome.returned true, s) := by
  simp [arch_checkWait_loop, EINTR, ECHILD]

/-- Claim C8. When the retrieval reports `ECHILD` the drain loop returns
iteration-complete at once, whatever the configuration and the state reached;
as the first retrieval result of `arch_checkWait` this classifies no event and
leaves the worker state unchanged. -/
theorem arch_checkWait_echild (hfuzz : honggfuzz_t) (s : ReapState) (status : Int)
    (rest : List WaitRet) :
    (∀ ptracePid childPid : Int,
      arch_checkWait_loop hfuzz ptracePid childPid s (WaitRet.mk (-1) ECHILD status :: rest)
        = some (Outcome.returned true, s))
    ∧ arch_checkWait hfuzz s (WaitRet.mk (-1) ECHILD status :: rest)
        = some (Outcome.returned true, s) := by
  exact ⟨fun pp cp => checkWait_loop_echild hfuzz pp cp s status rest,
    checkWait_loop_echild hfuzz _ _ s status rest⟩


theorem reapState_analyzed_nil (s : ReapState) :
    ({ s with analyzed := s.analyzed ++ [] } : ReapState) = s := by
  cases s; simp

theorem checkWait_loop_own (hfuzz : honggfuzz_t) (cp : Int) (hpers : hfuzz.persistent = false)
    (evs tail : List WaitRet) :
    ∀ s : ReapState, (∀ r ∈ evs, r.pid ≠ 0 ∧ r.pid ≠ -1) →
      arch_checkWait_loop hfuzz cp cp s (evs ++ tail)
        = arch_checkWait_loop hfuzz cp cp
            { s with analyzed := s.analyzed ++ evs.map eventOf } tail := by
  induction evs with
  | nil => intro s _; simp [reapState_analyzed_nil]
  | cons r rs ih =>
    intro s h
    have hr := h r (List.mem_cons_self r rs)
    have hrs : ∀ r' ∈ rs, r'.pid ≠ 0 ∧ r'.pid ≠ -1 := fun r' hr' =>
      h r' (List.mem_cons_of_mem r hr')
    rw [List.cons_append]
    simp only [arch_checkWait_loop, hr.1, hr.2, hpers, false_and, if_false, if_true,
      Bool.false_eq_true]
    rw [ih _ hrs]
    simp [arch_ptraceAnalyze, eventOf]

theorem checkWait_loop_childEnd (hfuzz : honggfuzz_t) (pp cp : Int) (hne : pp ≠ cp)
    (s : ReapState) (r : WaitRet) (rs : List WaitRet) (h0 : r.pid ≠ 0) (h1 : r.pid ≠ -1)
    (hp : ¬ (hfuzz.persistent = true ∧ r.pid = s.fuzzer.persistentPid
      ∧ (WIFEXITED r.status = true ∨ WIFSIGNALED r.status = true)))
    (hc : r.pid = cp) (hend : WIFEXITED r.status = true ∨ WIFSIGNALED r.status = true) :
    arch_checkWait_loop hfuzz pp cp s (r :: rs) = some (Outcome.returned true, s) := by
  rw [arch_checkWait_loop, if_neg h0, if_neg (fun h => h1 h.1), if_neg (fun h => h1 h.1),
    if_neg h1, if_neg hp, if_neg hne, if_pos ⟨hc, hend⟩]

theorem checkWait_loop_childOther (hfuzz : honggfuzz_t) (pp cp : Int) (hne : pp ≠ cp)
    (s : ReapState) (r : WaitRet) (rs : List WaitRet) (h0 : r.pid ≠ 0) (h1 : r.pid ≠ -1)
    (hc : r.pid = cp) (hend : ¬ (WIFEXITED r.status = true ∨ WIFSIGNALED r.status = true)) :
    arch_checkWait_loop hfuzz pp cp s (r :: rs) = arch_checkWait_loop hfuzz pp cp s rs := by
  rw [arch_checkWait_loop, if_neg h0, if_neg (fun h => h1 h.1), if_neg (fun h => h1 h.1),
    if_neg h1, if_neg (fun h => hend h.2.2), if_neg hne, if_neg (fun h => hend h.2), if_pos hc]

theorem checkWait_loop_other (hfuzz : honggfuzz_t) (pp cp : Int) (hne : pp ≠ cp)
    (s : ReapState) (r : WaitRet) (rs : List WaitRet) (h0 : r.pid ≠ 0) (h1 : r.pid ≠ -1)
    (hp : ¬ (hfuzz.persistent = true ∧ r.pid = s.fuzzer.persistentPid
      ∧ (WIFEXITED r.status = true ∨ WIFSIGNALED r.status = true)))
    (hc : r.pid ≠ cp) :
    arch_checkWait_loop hfuzz pp cp s (r :: rs)
      = arch_checkWait_loop hfuzz pp cp (arch_ptraceAnalyze r.status r.pid s) rs := by
  rw [arch_checkWait_loop, if_neg h0, if_neg (fun h => h1 h.1), if_neg (fun h => h1 h.1),
    if_neg h1, if_neg hp, if_neg hne, if_neg (fun h => hc h.1), if_neg hc]

theorem checkWait_loop_external (hfuzz : honggfuzz_t) (pp cp : Int) (hne : pp ≠ cp)
    (evs tail : List WaitRet) :
    ∀ s : ReapState,
      (∀ r ∈ evs, r.pid ≠ 0 ∧ r.pid ≠ -1
        ∧ ¬ (hfuzz.persistent = true ∧ r.pid = s.fuzzer.persistentPid
            ∧ (WIFEXITED r.status = true ∨ WIFSIGNALED r.status = true))) →
      arch_checkWait_loop hfuzz pp cp s (evs ++ tail)
        = if evs.any (isChildEnd cp) = true then
            some (Outcome.returned true,
              { s with analyzed := s.analyzed ++
                  ((evs.takeWhile (fun r => !isChildEnd cp r)).filter
                    (fun r => decide (r.pid ≠ cp))).map eventOf })
          else
            arch_checkWait_loop hfuzz pp cp
              { s with analyzed := s.analyzed ++
                  ((evs.takeWhile (fun r => !isChildEnd cp r)).filter
                    (fun r => decide (r.pid ≠ cp))).map eventOf } tail := by
  induction evs with
  | nil => intro s _; simp [reapState_analyzed_nil]
  | cons r rs ih =>
    intro s h
    obtain ⟨h0, h1, hp⟩ := h r (List.mem_cons_self r rs)
    rw [List.cons_append]
    by_cases hend : isChildEnd cp r = true
    · have hend2 : r.pid = cp ∧ (WIFEXITED r.status = true ∨ WIFSIGNALED r.status = true) := by
        simpa [isChildEnd] using hend
      rw [checkWait_loop_childEnd hfuzz pp cp hne s r _ h0 h1 hp hend2.1 hend2.2]
      simp [List.takeWhile, List.any, hend, reapState_analyzed_nil]
    · have hendf : isChildEnd cp r = false := by simpa using hend
      have hend2 : ¬ (r.pid = cp ∧ (WIFEXITED r.status = true ∨ WIFSIGNALED r.status = true)) := by
        simpa [isChildEnd] using hendf
      by_cases hc : r.pid = cp
      · have hrs : ∀ r' ∈ rs, r'.pid ≠ 0 ∧ r'.pid ≠ -1
            ∧ ¬ (hfuzz.persistent = true ∧ r'.pid = s.fuzzer.persistentPid
              ∧ (WIFEXITED r'.status = true ∨ WIFSIGNALED r'.status = true)) := fun r' hr' =>
          h r' (List.mem_cons_of_mem r hr')
        rw [checkWait_loop_childOther hfuzz pp cp hne s r _ h0 h1 hc (fun he => hend2 ⟨hc, he⟩),
          ih s hrs]
        simp [List.takeWhile, List.any, hendf, hc]
      · have hrs : ∀ r' ∈ rs, r'.pid ≠ 0 ∧ r'.pid ≠ -1
            ∧ ¬ (hfuzz.persistent = true
              ∧ r'.pid = (arch_ptraceAnalyze r.status r.pid s).fuzzer.persistentPid
              ∧ (WIFEXITED r'.status = true ∨ WIFSIGNALED r'.status = true)) := fun r' hr' =>
          h r' (List.mem_cons_of_mem r hr')
        rw [checkWait_loop_other hfuzz pp cp hne s r _ h0 h1 hp hc, ih _ hrs]
        simp [List.takeWhile, List.any, hendf, hc, arch_ptraceAnalyze, eventOf]

theorem stopped_not_end (status : Int) (h : WIFSTOPPED status = true) :
    ¬ (WIFEXITED status = true ∨ WIFSIGNALED status = true) := by
  have h256 : status % 256 = 127 := by simpa [WIFSTOPPED] using h
  have h128 : status % 128 = 127 := by omega
  simp only [WIFEXITED, WIFSIGNALED, WTERMSIG, h128]
  decide


theorem ptracePidOf_own (hfuzz : honggfuzz_t) (fuzzer : fuzzer_t) (h : ¬ hfuzz.linux_pid > 0) :
    ptracePidOf hfuzz fuzzer = fuzzer.pid := by
  simp [ptracePidOf, h]

theorem ptracePidOf_external (hfuzz : honggfuzz_t) (fuzzer : fuzzer_t) (h : hfuzz.linux_pid > 0) :
    ptracePidOf hfuzz fuzzer = hfuzz.linux_pid := by
  simp [ptracePidOf, h]

/-- Claim C6. Without external pid and with persistent mode off, `arch_checkWait`
fed `n ≥ 0` stopped events and then one exited or signal-terminated event, all
for the worker's own child pid, classifies every one of them in order and
reports iteration-complete after the last one, at the `ECHILD` retrieval that
follows the end of the child; on no prefix of the events has the loop reported
anything, after the stopped events it keeps draining with each of them
classified, and an empty queue met among the stopped events is reported as not
complete. -/
theorem arch_checkWait_own_child_events (hfuzz : honggfuzz_t) (s : ReapState)
    (stops : List WaitRet) (fin : WaitRet)
    (hpers : hfuzz.persistent = false) (hext : ¬ hfuzz.linux_pid > 0)
    (hpid : 0 < s.fuzzer.pid)
    (hstops : ∀ r ∈ stops, r.pid = s.fuzzer.pid ∧ WIFSTOPPED r.status = true)
    (hfin : fin.pid = s.fuzzer.pid
      ∧ (WIFEXITED fin.status = true ∨ WIFSIGNALED fin.status = true)) :
    (∀ (status : Int) (rest : List WaitRet),
      arch_checkWait hfuzz s (stops ++ fin :: WaitRet.mk (-1) ECHILD status :: rest)
        = some (Outcome.returned true,
            { s with analyzed := s.analyzed ++ (stops ++ [fin]).map eventOf }))
    ∧ (∀ k : Nat, arch_checkWait hfuzz s ((stops ++ [fin]).take k) = none)
    ∧ (∀ tail : List WaitRet,
      arch_checkWait hfuzz s (stops ++ tail)
        = arch_checkWait hfuzz { s with analyzed := s.analyzed ++ stops.map eventOf } tail)
    ∧ (∀ (k : Nat) (errno status : Int) (rest : List WaitRet),
      arch_checkWait hfuzz s (stops.take k ++ WaitRet.mk 0 errno status :: rest)
        = some (Outcome.returned false,
            { s with analyzed := s.analyzed ++ (stops.take k).map eventOf })) := by
  have hvalid : ∀ r ∈ stops ++ [fin], r.pid ≠ 0 ∧ r.pid ≠ -1 := by
    intro r hr
    have hrp : r.pid = s.fuzzer.pid := by
      rcases List.mem_append.mp hr with h | h
      · exact (hstops r h).1
      · rw [List.mem_singleton.mp h]; exact hfin.1
    rw [hrp]
    constructor <;> omega
  have hpp := ptracePidOf_own hfuzz s.fuzzer hext
  refine ⟨fun status rest => ?_, fun k => ?_, fun tail => ?_, fun k errno status rest => ?_⟩
  · have e : stops ++ fin :: WaitRet.mk (-1) ECHILD status :: rest
        = (stops ++ [fin]) ++ WaitRet.mk (-1) ECHILD status :: rest := by simp
    rw [e]
    unfold arch_checkWait
    rw [hpp, checkWait_loop_own hfuzz _ hpers _ _ s hvalid]
    exact checkWait_loop_echild hfuzz _ _ _ status rest
  · have hk : ∀ r ∈ (stops ++ [fin]).take k, r.pid ≠ 0 ∧ r.pid ≠ -1 := fun r hr =>
      hvalid r (List.mem_of_mem_take hr)
    have h := checkWait_loop_own hfuzz s.fuzzer.pid hpers _ [] s hk
    unfold arch_checkWait
    rw [hpp]
    rw [List.append_nil] at h
    rw [h]
    rfl
  · have hs : ∀ r ∈ stops, r.pid ≠ 0 ∧ r.pid ≠ -1 := fun r hr =>
      hvalid r (List.mem_append_left _ hr)
    unfold arch_checkWait
    rw [hpp]
    exact checkWait_loop_own hfuzz _ hpers _ _ s hs
  · have hk : ∀ r ∈ stops.take k, r.pid ≠ 0 ∧ r.pid ≠ -1 := fun r hr =>
      hvalid r (List.mem_append_left _ (List.mem_of_mem_take hr))
    unfold arch_checkWait
    rw [hpp, checkWait_loop_own hfuzz _ hpers _ _ s hk]
    simp [arch_checkWait_loop]

/-- Witness of C6 at the events stopped (SIGSTOP), stopped (SIGTRAP), exited,
for the child pid 100. -/
theorem arch_checkWait_own_child_events_witness :
    arch_checkWait sessionOwnChild worker100
        ([WaitRet.mk 100 0 0x137f, WaitRet.mk 100 0 0x57f] ++ WaitRet.mk 100 0 0
          :: WaitRet.mk (-1) ECHILD 0 :: [])
      = some (Outcome.returned true,
          { worker100 with analyzed := worker100.analyzed
              ++ ([WaitRet.mk 100 0 0x137f, WaitRet.mk 100 0 0x57f]
                ++ [WaitRet.mk 100 0 0]).map eventOf }) :=
  (arch_checkWait_own_child_events sessionOwnChild worker100
    [WaitRet.mk 100 0 0x137f, WaitRet.mk 100 0 0x57f] (WaitRet.mk 100 0 0)
    (by decide) (by decide) (by decide) (by decide) (by decide)).1 0 []

/-- Claim C10. With an external monitored pid that differs from the worker's
own child pid, and for events that are not the death of the persistent child:
an exit or signal termination of the child pid ends `arch_checkWait` with
iteration-complete, unclassified; a stop of the child pid is skipped,
unclassified, and draining goes on; an event of any other pid is classified and
draining goes on. Hence on every event sequence the classified events are the
events of other pids that come before the first exit or termination of the
child pid, and the loop is complete at that event or else keeps draining. -/
theorem arch_checkWait_external_target (hfuzz : honggfuzz_t) (s : ReapState)
    (hext : hfuzz.linux_pid > 0) (hne : hfuzz.linux_pid ≠ s.fuzzer.pid) :
    (∀ (r : WaitRet) (rest : List WaitRet), r.pid ≠ 0 → r.pid ≠ -1 →
      ¬ (hfuzz.persistent = true ∧ r.pid = s.fuzzer.persistentPid
          ∧ (WIFEXITED r.status = true ∨ WIFSIGNALED r.status = true)) →
      r.pid = s.fuzzer.pid → (WIFEXITED r.status = true ∨ WIFSIGNALED r.status = true) →
      arch_checkWait hfuzz s (r :: rest) = some (Outcome.returned true, s))
    ∧ (∀ (r : WaitRet) (rest : List WaitRet), r.pid ≠ 0 → r.pid ≠ -1 →
      r.pid = s.fuzzer.pid → WIFSTOPPED r.status = true →
      arch_checkWait hfuzz s (r :: rest) = arch_checkWait hfuzz s rest)
    ∧ (∀ (r : WaitRet) (rest : List WaitRet), r.pid ≠ 0 → r.pid ≠ -1 →
      ¬ (hfuzz.persistent = true ∧ r.pid = s.fuzzer.persistentPid
          ∧ (WIFEXITED r.status = true ∨ WIFSIGNALED r.status = true)) →
      r.pid ≠ s.fuzzer.pid →
      arch_checkWait hfuzz s (r :: rest)
        = arch_checkWait hfuzz (arch_ptraceAnalyze r.status r.pid s) rest)
    ∧ (∀ evs tail : List WaitRet,
      (∀ r ∈ evs, r.pid ≠ 0 ∧ r.pid ≠ -1
        ∧ ¬ (hfuzz.persistent = true ∧ r.pid = s.fuzzer.persistentPid
            ∧ (WIFEXITED r.status = true ∨ WIFSIGNALED r.status = true))) →
      arch_checkWait hfuzz s (evs ++ tail)
        = if evs.any (isChildEnd s.fuzzer.pid) = true then
            some (Outcome.returned true,
              { s with analyzed := s.analyzed ++
                  ((evs.takeWhile (fun r => !isChildEnd s.fuzzer.pid r)).filter
                    (fun r => decide (r.pid ≠ s.fuzzer.pid))).map eventOf })
          else
            arch_checkWait hfuzz
              { s with analyzed := s.analyzed ++
                  ((evs.takeWhile (fun r => !isChildEnd s.fuzzer.pid r)).filter
                    (fun r => decide (r.pid ≠ s.fuzzer.pid))).map eventOf } tail) := by
  have hpp := ptracePidOf_external hfuzz s.fuzzer hext
  refine ⟨?_, ?_, ?_, ?_⟩
  · intro r rest h0 h1 hp hc hend
    unfold arch_checkWait
    rw [hpp]
    exact checkWait_loop_childEnd hfuzz _ _ hne s r rest h0 h1 hp hc hend
  · intro r rest h0 h1 hc hstop
    unfold arch_checkWait
    rw [hpp]
    exact checkWait_loop_childOther hfuzz _ _ hne s r rest h0 h1 hc (stopped_not_end _ hstop)
  · intro r rest h0 h1 hp hc
    have hpp2 : ptracePidOf hfuzz (arch_ptraceAnalyze r.status r.pid s).fuzzer
        = hfuzz.linux_pid := hpp
    unfold arch_checkWait
    rw [hpp, hpp2]
    exact checkWait_loop_other hfuzz _ _ hne s r rest h0 h1 hp hc
  · intro evs tail h
    unfold arch_checkWait
    rw [hpp]
    exact checkWait_loop_external hfuzz _ _ hne evs tail s h

/-- Witness of C10: the external pid 500 is monitored, the child is pid 100;
of the five events only the two of other pids that precede the exit of the
child are classified. -/
theorem arch_checkWait_external_target_witness :
    arch_checkWait sessionExternal worker100
        ([WaitRet.mk 500 0 0x57f, WaitRet.mk 100 0 0x137f, WaitRet.mk 501 0 0x57f,
          WaitRet.mk 100 0 0, WaitRet.mk 500 0 9] ++ [])
      = some (Outcome.returned true,
          { worker100 with analyzed := [(0x57f, 500), (0x57f, 501)] }) :=
  ((arch_checkWait_external_target sessionExternal worker100 (by decide) (by decide)).2.2.2
    [WaitRet.mk 500 0 0x57f, WaitRet.mk 100 0 0x137f, WaitRet.mk 501 0 0x57f,
      WaitRet.mk 100 0 0, WaitRet.mk 500 0 9] [] (by decide)).trans rfl


/-! ### The argument vector of `arch_launchChild` -/

theorem strcmp_eq_zero_iff : ∀ a b : CStr, strcmp a b = 0 ↔ a = b := by
  intro a
  induction a with
  | nil => intro b; cases b <;> simp [strcmp]
  | cons x xs ih =>
    intro b
    cases b with
    | nil => simp [strcmp]
    | cons y ys =>
      by_cases hxy : x = y
      · simp [strcmp, hxy, ih]
      · by_cases hlt : x.toNat < y.toNat <;> simp [strcmp, hxy, hlt]

theorem startsWith_iff : ∀ hay needle : CStr, startsWith hay needle = true ↔ needle <+: hay := by
  intro hay
  induction hay with
  | nil => intro needle; cases needle <;> simp [startsWith]
  | cons h hs ih =>
    intro needle
    cases needle with
    | nil => simp [startsWith]
    | cons n ns =>
      simp only [startsWith, Bool.and_eq_true, beq_iff_eq, ih, List.cons_prefix_cons]
      constructor
      · rintro ⟨h1, h2⟩; exact ⟨h1.symm, h2⟩
      · rintro ⟨h1, h2⟩; exact ⟨h1.symm, h2⟩

theorem strstr_eq_none_iff (needle : CStr) : ∀ hay : CStr,
    strstr needle hay = none ↔ ¬ needle <:+: hay := by
  intro hay
  induction hay with
  | nil =>
    cases needle <;> simp [strstr, startsWith]
  | cons h t ih =>
    by_cases hs : startsWith (h :: t) needle = true
    · have hp : needle <+: h :: t := (startsWith_iff _ _).mp hs
      simp [strstr, hs, hp.isInfix]
    · have hp : ¬ needle <+: h :: t := fun hp => hs ((startsWith_iff _ _).mpr hp)
      simp [strstr, hs, ih, List.infix_cons_iff, hp]

theorem strstr_first (needle pre suf : CStr)
    (hfirst : ∀ k < pre.length, ¬ needle <+: (pre ++ needle ++ suf).drop k) :
    strstr needle (pre ++ needle ++ suf) = some pre.length := by
  induction pre with
  | nil =>
    have hs : startsWith (needle ++ suf) needle = true :=
      (startsWith_iff _ _).mpr (List.prefix_append _ _)
    rw [List.nil_append]
    cases hl : needle ++ suf with
    | nil => rw [hl] at hs; simp [strstr, hs]
    | cons h t => rw [hl] at hs; simp [strstr, hs]
  | cons a pre ih =>
    have h0 : ¬ needle <+: a :: (pre ++ needle ++ suf) := by
      have := hfirst 0 (by simp)
      simpa using this
    have hs : startsWith (a :: (pre ++ needle ++ suf)) needle = false := by
      cases hv : startsWith (a :: (pre ++ needle ++ suf)) needle with
      | false => rfl
      | true => exact absurd ((startsWith_iff _ _).mp hv) h0
    have ih2 := ih (fun k hk => by
      have := hfirst (k + 1) (by simp; omega)
      simpa using this)
    simp only [List.cons_append, List.append_assoc] at hs ih2 ⊢
    simp [strstr, hs, ih2]

theorem launchChild_loop_step (placeholder : CStr) (hfuzz : honggfuzz_t) (fileName : CStr)
    (x : Nat) (c : CStr) (rest : List CStr) (args : List ArgPtr) (argData : CStr)
    (hx : x < ARGS_MAX) :
    arch_launchChild_loop placeholder hfuzz fileName x (c :: rest) args argData
      = arch_launchChild_loop placeholder hfuzz fileName (x + 1) rest
          (args ++ [argPtrFor placeholder hfuzz x c])
          (if writesArgData placeholder hfuzz c = true then
            snprintf argData PATH_MAX (c.take ((strstr placeholder c).getD 0) ++ fileName)
           else argData) := by
  rw [arch_launchChild_loop, if_pos hx]
  by_cases hA : (!hfuzz.fuzzStdin && !hfuzz.persistent && strcmp c placeholder == 0) = true
  · rw [if_pos hA]
    simp [argPtrFor, writesArgData, hA]
  · have hA2 : (!hfuzz.fuzzStdin && !hfuzz.persistent && strcmp c placeholder == 0) = false := by
      simpa using hA
    rw [if_neg hA]
    by_cases hB : (!hfuzz.fuzzStdin && !hfuzz.persistent && (strstr placeholder c).isSome) = true
    · rw [if_pos hB]
      simp only [argPtrFor, writesArgData, hA2, hB]
      simp
    · have hB2 : (!hfuzz.fuzzStdin && !hfuzz.persistent && (strstr placeholder c).isSome)
          = false := by simpa using hB
      rw [if_neg hB]
      simp only [argPtrFor, writesArgData, hA2, hB2]
      simp

theorem launchChild_loop_stop (placeholder : CStr) (hfuzz : honggfuzz_t) (fileName : CStr)
    (x : Nat) (rest : List CStr) (args : List ArgPtr) (argData : CStr)
    (hx : ¬ x < ARGS_MAX) :
    arch_launchChild_loop placeholder hfuzz fileName x rest args argData = (args, argData) := by
  cases rest with
  | nil => rfl
  | cons c rest => rw [arch_launchChild_loop, if_neg hx]

theorem launchChild_loop_fst (placeholder : CStr) (hfuzz : honggfuzz_t) (fileName : CStr) :
    ∀ (rest : List CStr) (x : Nat) (args : List ArgPtr) (argData : CStr),
      (arch_launchChild_loop placeholder hfuzz fileName x rest args argData).1
        = args ++ ptrsFrom placeholder hfuzz x rest := by
  intro rest
  induction rest with
  | nil => intro x args argData; simp [arch_launchChild_loop, ptrsFrom]
  | cons c rest ih =>
    intro x args argData
    by_cases hx : x < ARGS_MAX
    · rw [launchChild_loop_step _ _ _ _ _ _ _ _ hx, ih]
      simp [ptrsFrom, hx]
    · rw [launchChild_loop_stop _ _ _ _ _ _ _ hx]
      simp [ptrsFrom, hx]

theorem ptrsFrom_getElem? (placeholder : CStr) (hfuzz : honggfuzz_t) :
    ∀ (rest : List CStr) (x i : Nat),
      (ptrsFrom placeholder hfuzz x rest)[i]?
        = if x + i < ARGS_MAX then (rest[i]?).map (argPtrFor placeholder hfuzz (x + i))
          else none := by
  intro rest
  induction rest with
  | nil => intro x i; simp [ptrsFrom]
  | cons c rest ih =>
    intro x i
    by_cases hx : x < ARGS_MAX
    · cases i with
      | zero => simp [ptrsFrom, hx]
      | succ i =>
        have e : x + 1 + i = x + (i + 1) := by omega
        simp [ptrsFrom, hx, ih, e]
    · have hxi : ¬ x + i < ARGS_MAX := by omega
      simp [ptrsFrom, hx, hxi]

theorem ptrsFrom_length (placeholder : CStr) (hfuzz : honggfuzz_t) :
    ∀ (rest : List CStr) (x : Nat),
      (ptrsFrom placeholder hfuzz x rest).length = min rest.length (ARGS_MAX - x) := by
  intro rest
  induction rest with
  | nil => intro x; simp [ptrsFrom]
  | cons c rest ih =>
    intro x
    by_cases hx : x < ARGS_MAX
    · simp [ptrsFrom, hx, ih]; omega
    · simp [ptrsFrom, hx]; omega


theorem launchChild_loop_snd_keep (placeholder : CStr) (hfuzz : honggfuzz_t) (fileName : CStr) :
    ∀ (rest : List CStr) (x : Nat) (args : List ArgPtr) (argData : CStr),
      (∀ (j : Nat) (c : CStr), x + j < ARGS_MAX → rest[j]? = some c →
        writesArgData placeholder hfuzz c = false) →
      (arch_launchChild_loop placeholder hfuzz fileName x rest args argData).2 = argData := by
  intro rest
  induction rest with
  | nil => intro x args argData _; rfl
  | cons c rest ih =>
    intro x args argData h
    by_cases hx : x < ARGS_MAX
    · have hc : writesArgData placeholder hfuzz c = false := h 0 c (by omega) (by simp)
      rw [launchChild_loop_step _ _ _ _ _ _ _ _ hx, hc]
      simp only [Bool.false_eq_true, if_false]
      apply ih
      intro j c2 hj hc2
      exact h (j + 1) c2 (by omega) (by simpa using hc2)
    · rw [launchChild_loop_stop _ _ _ _ _ _ _ hx]

theorem launchChild_loop_snd_last (placeholder : CStr) (hfuzz : honggfuzz_t) (fileName : CStr) :
    ∀ (rest : List CStr) (x : Nat) (args : List ArgPtr) (argData : CStr) (i : Nat) (c : CStr),
      rest[i]? = some c → x + i < ARGS_MAX → writesArgData placeholder hfuzz c = true →
      (∀ (j : Nat) (c2 : CStr), i < j → x + j < ARGS_MAX → rest[j]? = some c2 →
        writesArgData placeholder hfuzz c2 = false) →
      (arch_launchChild_loop placeholder hfuzz fileName x rest args argData).2
        = (c.take ((strstr placeholder c).getD 0) ++ fileName).take (PATH_MAX - 1) := by
  intro rest
  induction rest with
  | nil => intro x args argData i c hc; simp at hc
  | cons c0 rest ih =>
    intro x args argData i c hc hxi hw hlast
    have hx : x < ARGS_MAX := by omega
    rw [launchChild_loop_step _ _ _ _ _ _ _ _ hx]
    cases i with
    | zero =>
      have e : c0 = c := by simpa using hc
      subst e
      rw [launchChild_loop_snd_keep]
      · simp [hw, snprintf, PATH_MAX]
      · intro j c2 hj hc2
        exact hlast (j + 1) c2 (by omega) (by omega) (by simpa using hc2)
    | succ i =>
      apply ih (x + 1) _ _ i c (by simpa using hc) (by omega) hw
      intro j c2 hij hj hc2
      exact hlast (j + 1) c2 (by omega) (by omega) (by simpa using hc2)

theorem launchChild_argv_getElem? (placeholder : CStr) (hfuzz : honggfuzz_t) (fileName : CStr)
    (i : Nat) :
    (arch_launchChild_argv placeholder hfuzz fileName)[i]?
      = if i < ARGS_MAX then
          (hfuzz.cmdline[i]?).map (fun c => derefArg hfuzz fileName
            (arch_launchChild_loop placeholder hfuzz fileName 0 hfuzz.cmdline [] []).2
            (argPtrFor placeholder hfuzz i c))
        else none := by
  unfold arch_launchChild_argv
  simp only [List.getElem?_map, launchChild_loop_fst, List.nil_append, ptrsFrom_getElem?,
    Nat.zero_add]
  by_cases hi : i < ARGS_MAX
  · simp only [hi, if_true, Option.map_map]
    rfl
  · simp [hi]

theorem launchChild_argv_length (placeholder : CStr) (hfuzz : honggfuzz_t) (fileName : CStr) :
    (arch_launchChild_argv placeholder hfuzz fileName).length
      = min hfuzz.cmdline.length ARGS_MAX := by
  unfold arch_launchChild_argv
  simp [launchChild_loop_fst, ptrsFrom_length]

/-- Claim C3. With stdin-based fuzzing or persistent mode active the launched
argument vector is the template itself, cut at the cap of `ARGS_MAX` arguments:
no argument is substituted, whether or not it contains or equals the
placeholder. -/
theorem arch_launchChild_no_substitution (placeholder : CStr) (hfuzz : honggfuzz_t)
    (fileName : CStr) (h : hfuzz.fuzzStdin = true ∨ hfuzz.persistent = true) :
    arch_launchChild_argv placeholder hfuzz fileName = hfuzz.cmdline.take ARGS_MAX := by
  apply List.ext_getElem?
  intro i
  rw [launchChild_argv_getElem?, List.getElem?_take]
  by_cases hi : i < ARGS_MAX
  · rw [if_pos hi, if_pos hi]
    cases hc : hfuzz.cmdline[i]? with
    | none => rfl
    | some c =>
      have hp : argPtrFor placeholder hfuzz i c = ArgPtr.cmdline i := by
        rcases h with h | h <;> simp [argPtrFor, h]
      simp [hp, derefArg, List.getD, hc]
  · rw [if_neg hi, if_neg hi]

/-- Witness of C3: in persistent mode the placeholder arguments are passed on
as they are. -/
theorem arch_launchChild_no_substitution_witness :
    arch_launchChild_argv upstreamPlaceholder { sessionOwnChild with persistent := true }
        "/tmp/in".toList
      = ["/bin/target".toList, "___FILE___".toList] :=
  (arch_launchChild_no_substitution upstreamPlaceholder
    { sessionOwnChild with persistent := true } "/tmp/in".toList (Or.inr rfl)).trans (by decide)


theorem writesArgData_false_of (placeholder : CStr) (hfuzz : honggfuzz_t) (c : CStr)
    (h : c = placeholder ∨ ¬ placeholder <:+: c) :
    writesArgData placeholder hfuzz c = false := by
  rcases h with h | h
  · have hz : strcmp c placeholder = 0 := (strcmp_eq_zero_iff _ _).mpr h
    simp only [writesArgData, hz]
    cases hfuzz.fuzzStdin <;> cases hfuzz.persistent <;> simp
  · have hn : strstr placeholder c = none := (strstr_eq_none_iff _ _).mpr h
    simp [writesArgData, hn]

/-- Claim C1, as amended. With file-based fuzzing and persistent mode off, for
the last template argument below the cap that contains the placeholder as a
proper substring, the launched argument is the first `PATH_MAX - 1` bytes of
prefix + inputPath, the prefix being the bytes before the first occurrence of
the placeholder; the bytes after the placeholder are not copied. -/
theorem arch_launchChild_in_token (placeholder : CStr) (hfuzz : honggfuzz_t)
    (fileName : CStr) (x : Nat) (pre suf : CStr)
    (hstdin : hfuzz.fuzzStdin = false) (hpers : hfuzz.persistent = false)
    (hx : x < ARGS_MAX) (hc : hfuzz.cmdline[x]? = some (pre ++ placeholder ++ suf))
    (hproper : pre ++ placeholder ++ suf ≠ placeholder)
    (hfirst : ∀ k < pre.length, ¬ placeholder <+: (pre ++ placeholder ++ suf).drop k)
    (hlast : ∀ (y : Nat) (c : CStr), x < y → y < ARGS_MAX → hfuzz.cmdline[y]? = some c →
      c = placeholder ∨ ¬ placeholder <:+: c) :
    (arch_launchChild_argv placeholder hfuzz fileName)[x]?
      = some ((pre ++ fileName).take (PATH_MAX - 1)) := by
  have hstr := strstr_first placeholder pre suf hfirst
  have htake : (pre ++ placeholder ++ suf).take pre.length = pre := by
    rw [List.append_assoc, List.take_left]
  generalize pre ++ placeholder ++ suf = c at hc hproper hstr htake
  have hcmp : (strcmp c placeholder == 0) = false := by
    have : strcmp c placeholder ≠ 0 := fun h => hproper ((strcmp_eq_zero_iff _ _).mp h)
    simpa using this
  have hw : writesArgData placeholder hfuzz c = true := by
    simp only [writesArgData, hstdin, hpers, hcmp, hstr]
    rfl
  have hp : argPtrFor placeholder hfuzz x c = ArgPtr.argData := by
    simp only [argPtrFor, hstdin, hpers, hcmp, hstr]
    rfl
  have hfin := launchChild_loop_snd_last placeholder hfuzz fileName hfuzz.cmdline 0 [] [] x
    c hc (by omega) hw
    (fun j c2 hj hj2 hc2 => writesArgData_false_of placeholder hfuzz c2
      (hlast j c2 hj (by omega) hc2))
  rw [launchChild_argv_getElem?, if_pos hx, hc]
  simp only [Option.map_some', hp, derefArg, hfin, hstr, Option.getD_some, htake]

/-- Witness of the amended C1 at the template argument `--in=___FILE___.txt`. -/
theorem arch_launchChild_in_token_witness :
    (arch_launchChild_argv upstreamPlaceholder sessionInToken "/tmp/in".toList)[1]?
      = some (("--in=".toList ++ "/tmp/in".toList).take (PATH_MAX - 1)) :=
  arch_launchChild_in_token upstreamPlaceholder sessionInToken "/tmp/in".toList 1
    "--in=".toList ".txt".toList rfl rfl (by decide) (by decide) (by decide) (by decide)
    (fun y c hy _ hc => by
      have hn : sessionInToken.cmdline[y]? = none := by
        apply List.getElem?_eq_none
        simp [sessionInToken, sessionOwnChild]
        omega
      rw [hn] at hc
      cases hc)

/-- Counterexample to C1 as stated: for the template argument
`--in=___FILE___.txt` and the input path `/tmp/in` the launched argument is
`--in=/tmp/in`, not prefix + inputPath + suffix. -/
theorem arch_launchChild_in_token_drops_suffix :
    (arch_launchChild_argv upstreamPlaceholder sessionInToken "/tmp/in".toList)[1]?
        = some "--in=/tmp/in".toList
      ∧ (arch_launchChild_argv upstreamPlaceholder sessionInToken "/tmp/in".toList)[1]?
        ≠ some ("--in=".toList ++ "/tmp/in".toList ++ ".txt".toList) := by
  decide

/-- Claim C2, as amended. With file-based fuzzing and persistent mode off the
launched vector has as many arguments as the template when the template has at
most `ARGS_MAX` of them, and `ARGS_MAX` otherwise; below the cap every argument
equal to the placeholder is replaced by exactly the input path, and every
argument that does not contain the placeholder is the template's argument, at
the same position. -/
theorem arch_launchChild_whole_token (placeholder : CStr) (hfuzz : honggfuzz_t)
    (fileName : CStr) (hstdin : hfuzz.fuzzStdin = false) (hpers : hfuzz.persistent = false) :
    (arch_launchChild_argv placeholder hfuzz fileName).length
        = min hfuzz.cmdline.length ARGS_MAX
    ∧ (hfuzz.cmdline.length ≤ ARGS_MAX →
        (arch_launchChild_argv placeholder hfuzz fileName).length = hfuzz.cmdline.length)
    ∧ (∀ i : Nat, i < ARGS_MAX → hfuzz.cmdline[i]? = some placeholder →
        (arch_launchChild_argv placeholder hfuzz fileName)[i]? = some fileName)
    ∧ (∀ (i : Nat) (c : CStr), i < ARGS_MAX → hfuzz.cmdline[i]? = some c →
        ¬ placeholder <:+: c →
        (arch_launchChild_argv placeholder hfuzz fileName)[i]? = some c) := by
  refine ⟨launchChild_argv_length _ _ _, fun hle => ?_, fun i hi hc => ?_,
    fun i c hi hc hn => ?_⟩
  · rw [launchChild_argv_length]; omega
  · have hz : strcmp placeholder placeholder = 0 := (strcmp_eq_zero_iff _ _).mpr rfl
    rw [launchChild_argv_getElem?, if_pos hi, hc]
    simp [argPtrFor, hstdin, hpers, hz, derefArg]
  · have hne : strcmp c placeholder ≠ 0 := by
      intro h
      rw [(strcmp_eq_zero_iff _ _).mp h] at hn
      exact hn (List.infix_refl _)
    have hnone : strstr placeholder c = none := (strstr_eq_none_iff _ _).mpr hn
    rw [launchChild_argv_getElem?, if_pos hi, hc]
    simp [argPtrFor, hne, hnone, derefArg, List.getD, hc]

/-- Witness of the amended C2 at the template `/bin/target ___FILE___`. -/
theorem arch_launchChild_whole_token_witness :
    (arch_launchChild_argv upstreamPlaceholder sessionOwnChild "/tmp/in".toList).length
        = sessionOwnChild.cmdline.length
      ∧ (arch_launchChild_argv upstreamPlaceholder sessionOwnChild "/tmp/in".toList)[1]?
        = some "/tmp/in".toList :=
  ⟨(arch_launchChild_whole_token upstreamPlaceholder sessionOwnChild "/tmp/in".toList
      rfl rfl).2.1 (by decide),
    (arch_launchChild_whole_token upstreamPlaceholder sessionOwnChild "/tmp/in".toList
      rfl rfl).2.2.1 1 (by decide) (by decide)⟩

/-- Counterexample to C2 as stated: an argument other than the whole-token one
is changed when it contains the placeholder, and a template of 514 arguments is
launched with 512. -/
theorem arch_launchChild_whole_token_fails :
    (sessionBoth.cmdline[2]? ≠ some upstreamPlaceholder
      ∧ (arch_launchChild_argv upstreamPlaceholder sessionBoth "/tmp/in".toList)[2]?
        ≠ sessionBoth.cmdline[2]?)
    ∧ (sessionLong.cmdline[0]? = some upstreamPlaceholder
      ∧ (arch_launchChild_argv upstreamPlaceholder sessionLong "/tmp/in".toList).length
        ≠ sessionLong.cmdline.length) := by
  have hl : sessionLong.cmdline.length = 514 := by
    simp only [sessionLong]
    rw [List.length_cons, List.length_replicate]
  have h0 : sessionLong.cmdline[0]? = some upstreamPlaceholder := by
    simp only [sessionLong, List.getElem?_cons_zero]
    rfl
  refine ⟨by decide, h0, ?_⟩
  rw [launchChild_argv_length, hl]
  decide


/-! ### The kernel-version gate -/

theorem isdigit_ne (c d : Char) (h : isdigit c = true) (hd : ¬ (48 ≤ d.toNat ∧ d.toNat ≤ 57)) :
    c ≠ d := by
  rintro rfl
  apply hd
  simpa [isdigit] using h

theorem isdigit_not_space (c : Char) (h : isdigit c = true) : isspace c = false := by
  have h1 := isdigit_ne c ' ' h (by decide)
  have h2 := isdigit_ne c '\t' h (by decide)
  have h3 := isdigit_ne c '\n' h (by decide)
  have h4 := isdigit_ne c '\x0b' h (by decide)
  have h5 := isdigit_ne c '\x0c' h (by decide)
  have h6 := isdigit_ne c '\r' h (by decide)
  simp [isspace, h1, h2, h3, h4, h5, h6]

theorem scanDigits_digits (rest : CStr) (hrest : ∀ c ∈ rest.head?, isdigit c = false) :
    ∀ (ds : CStr) (acc : Nat), (∀ c ∈ ds, isdigit c = true) →
      scanDigits (ds ++ rest) acc
        = (ds.foldl (fun a c => a * 10 + (c.toNat - 48)) acc, rest) := by
  intro ds
  induction ds with
  | nil =>
    intro acc _
    cases rest with
    | nil => rfl
    | cons c cs =>
      have hc : isdigit c = false := hrest c (by simp)
      simp [scanDigits, hc]
  | cons d ds ih =>
    intro acc h
    have hd : isdigit d = true := h d (List.mem_cons_self d ds)
    have hds : ∀ c ∈ ds, isdigit c = true := fun c hc => h c (List.mem_cons_of_mem d hc)
    simp [scanDigits, hd, ih _ hds]

theorem strtoul_digits (ULONG_MAX : Nat) (ds rest : CStr) (hne : ds ≠ [])
    (hds : ∀ c ∈ ds, isdigit c = true) (hrest : ∀ c ∈ rest.head?, isdigit c = false) :
    strtoul ULONG_MAX (ds ++ rest) = (min (decimalValue ds) ULONG_MAX, rest) := by
  cases ds with
  | nil => exact absurd rfl hne
  | cons d ds =>
    have hd : isdigit d = true := hds d (List.mem_cons_self d ds)
    have hsp : isspace d = false := isdigit_not_space d hd
    have hm : d ≠ '-' := isdigit_ne d '-' hd (by decide)
    have hpl : d ≠ '+' := isdigit_ne d '+' hd (by decide)
    have hscan : scanDigits (d :: ds ++ rest) 0 = (decimalValue (d :: ds), rest) :=
      scanDigits_digits rest hrest (d :: ds) 0 hds
    have hdrop : List.dropWhile isspace (d :: ds ++ rest) = d :: (ds ++ rest) := by
      simp [List.dropWhile, hsp]
    unfold strtoul
    rw [hdrop]
    simp only [scanSign, hm, hpl, if_false, hd, if_true]
    rw [← List.cons_append, hscan]
    generalize decimalValue (d :: ds) = v
    by_cases hov : ULONG_MAX < v
    · have hmin : min v ULONG_MAX = ULONG_MAX := by omega
      simp [hov, hmin]
    · have hmin : min v ULONG_MAX = v := by omega
      simp [hov, hmin]


theorem kernelGate_parsed (bits : DynFileBits) (ULONG_MAX : Nat) (hfuzz : honggfuzz_t)
    (major minor rest : CStr) (hsel : hfuzz.dynFileMethod ≠ bits.NONE)
    (hmaj : major ≠ [] ∧ ∀ c ∈ major, isdigit c = true)
    (hmin : minor ≠ [] ∧ ∀ c ∈ minor, isdigit c = true)
    (hrest : ∀ c ∈ rest.head?, isdigit c = false) :
    arch_archInit_kernelGate bits ULONG_MAX hfuzz (some (major ++ '.' :: minor ++ rest))
      = if min (decimalValue major) ULONG_MAX < (checkVersion bits hfuzz.dynFileMethod).1
          ∨ (min (decimalValue major) ULONG_MAX = (checkVersion bits hfuzz.dynFileMethod).1
            ∧ min (decimalValue minor) ULONG_MAX < (checkVersion bits hfuzz.dynFileMethod).2)
        then GateResult.tooOld else GateResult.passed := by
  have h1 : strtoul ULONG_MAX (major ++ '.' :: minor ++ rest)
      = (min (decimalValue major) ULONG_MAX, '.' :: (minor ++ rest)) := by
    have e : major ++ '.' :: minor ++ rest = major ++ ('.' :: (minor ++ rest)) := by simp
    rw [e]
    exact strtoul_digits ULONG_MAX major _ hmaj.1 hmaj.2 (by
      intro c hc
      have : c = '.' := by simpa using hc.symm
      rw [this]; decide)
  have h2 := strtoul_digits ULONG_MAX minor rest hmin.1 hmin.2 hrest
  unfold arch_archInit_kernelGate
  simp only [h1, h2, bne_iff_ne, ne_eq, hsel, not_false_eq_true, if_true, not_true_eq_false,
    if_false]
  by_cases hc : min (decimalValue major) ULONG_MAX < (checkVersion bits hfuzz.dynFileMethod).1
      ∨ (min (decimalValue major) ULONG_MAX = (checkVersion bits hfuzz.dynFileMethod).1
        ∧ min (decimalValue minor) ULONG_MAX < (checkVersion bits hfuzz.dynFileMethod).2)
  · rw [if_pos hc, if_pos (by simpa using hc)]
  · rw [if_neg hc, if_neg (by simpa using hc)]

theorem checkVersion_eq (bits : DynFileBits) (m : Nat) :
    checkVersion bits m
      = if m &&& bits.BTS_BLOCK ≠ 0 ∨ m &&& bits.BTS_EDGE ≠ 0 ∨ m &&& bits.IPT_BLOCK ≠ 0
        then (4, 1) else (3, 7) := by
  unfold checkVersion
  by_cases h : m &&& bits.BTS_BLOCK ≠ 0 ∨ m &&& bits.BTS_EDGE ≠ 0 ∨ m &&& bits.IPT_BLOCK ≠ 0
  · rw [if_pos h, if_pos (by simpa [or_assoc] using h)]
  · rw [if_neg h, if_neg (by simpa [or_assoc] using h)]

/-- Claim C5. For a selected coverage method and a kernel release that starts
with decimal digits (the major), a dot and decimal digits (the minor), the gate
of `arch_archInit` fails the session exactly when `(major, minor)` is
lexicographically below the minimum of the method, which is 4.1 when the
BTS-block, BTS-edge or Intel-PT bit is selected and 3.7 otherwise, and lets it
pass to `arch_perfInit` otherwise; a release whose major number is followed by
something else than a dot is rejected. -/
theorem arch_archInit_kernelGate_spec (bits : DynFileBits) (ULONG_MAX : Nat)
    (hfuzz : honggfuzz_t) (major minor rest : CStr)
    (hU : 4294967295 ≤ ULONG_MAX) (hsel : hfuzz.dynFileMethod ≠ bits.NONE)
    (hmaj : major ≠ [] ∧ ∀ c ∈ major, isdigit c = true)
    (hmin : minor ≠ [] ∧ ∀ c ∈ minor, isdigit c = true)
    (hrest : ∀ c ∈ rest.head?, isdigit c = false) :
    (arch_archInit_kernelGate bits ULONG_MAX hfuzz (some (major ++ '.' :: minor ++ rest))
        = GateResult.tooOld
      ↔ versionBelow (decimalValue major, decimalValue minor)
          (if hfuzz.dynFileMethod &&& bits.BTS_BLOCK ≠ 0
              ∨ hfuzz.dynFileMethod &&& bits.BTS_EDGE ≠ 0
              ∨ hfuzz.dynFileMethod &&& bits.IPT_BLOCK ≠ 0 then (4, 1) else (3, 7)))
    ∧ (¬ versionBelow (decimalValue major, decimalValue minor)
          (if hfuzz.dynFileMethod &&& bits.BTS_BLOCK ≠ 0
              ∨ hfuzz.dynFileMethod &&& bits.BTS_EDGE ≠ 0
              ∨ hfuzz.dynFileMethod &&& bits.IPT_BLOCK ≠ 0 then (4, 1) else (3, 7))
      → arch_archInit_kernelGate bits ULONG_MAX hfuzz (some (major ++ '.' :: minor ++ rest))
        = GateResult.passed)
    ∧ (∀ other : CStr, (∀ c ∈ other.head?, isdigit c = false ∧ c ≠ '.') →
      arch_archInit_kernelGate bits ULONG_MAX hfuzz (some (major ++ other))
        = GateResult.unsupported) := by
  have hg := kernelGate_parsed bits ULONG_MAX hfuzz major minor rest hsel hmaj hmin hrest
  rw [checkVersion_eq] at hg
  have hiff : (min (decimalValue major) ULONG_MAX
          < (if hfuzz.dynFileMethod &&& bits.BTS_BLOCK ≠ 0
              ∨ hfuzz.dynFileMethod &&& bits.BTS_EDGE ≠ 0
              ∨ hfuzz.dynFileMethod &&& bits.IPT_BLOCK ≠ 0 then ((4, 1) : Nat × Nat)
             else (3, 7)).1
        ∨ (min (decimalValue major) ULONG_MAX
            = (if hfuzz.dynFileMethod &&& bits.BTS_BLOCK ≠ 0
              ∨ hfuzz.dynFileMethod &&& bits.BTS_EDGE ≠ 0
              ∨ hfuzz.dynFileMethod &&& bits.IPT_BLOCK ≠ 0 then ((4, 1) : Nat × Nat)
             else (3, 7)).1
          ∧ min (decimalValue minor) ULONG_MAX
            < (if hfuzz.dynFileMethod &&& bits.BTS_BLOCK ≠ 0
              ∨ hfuzz.dynFileMethod &&& bits.BTS_EDGE ≠ 0
              ∨ hfuzz.dynFileMethod &&& bits.IPT_BLOCK ≠ 0 then ((4, 1) : Nat × Nat)
             else (3, 7)).2))
      ↔ versionBelow (decimalValue major, decimalValue minor)
          (if hfuzz.dynFileMethod &&& bits.BTS_BLOCK ≠ 0
              ∨ hfuzz.dynFileMethod &&& bits.BTS_EDGE ≠ 0
              ∨ hfuzz.dynFileMethod &&& bits.IPT_BLOCK ≠ 0 then (4, 1) else (3, 7)) := by
    unfold versionBelow
    split_ifs <;> simp only <;> omega
  refine ⟨?_, ?_, ?_⟩
  · rw [hg]
    constructor
    · intro h
      by_contra hn
      rw [if_neg (fun hc => hn (hiff.mp hc))] at h
      exact absurd h (by decide)
    · intro h
      rw [if_pos (hiff.mpr h)]
  · intro hnb
    rw [hg, if_neg (fun h => hnb (hiff.mp h))]
  · intro other hother
    have hs := strtoul_digits ULONG_MAX major other hmaj.1 hmaj.2
      (fun c hc => (hother c hc).1)
    unfold arch_archInit_kernelGate
    simp only [hs, bne_iff_ne, ne_eq, hsel, not_false_eq_true, if_true]
    cases other with
    | nil => rfl
    | cons c p =>
      have hc : c ≠ '.' := (hother c (by simp)).2
      simp [hc]

/-- Witness of C5: with the hardware-branch method (bit 2) release 3.6 fails
and 3.7 passes; with the Intel-PT method release 4.0 fails and 4.1 passes. -/
theorem arch_archInit_kernelGate_witness :
    arch_archInit_kernelGate upstreamBits 18446744073709551615
        { sessionOwnChild with dynFileMethod := 2 } (some (['3'] ++ '.' :: ['6'] ++ []))
        = GateResult.tooOld
    ∧ arch_archInit_kernelGate upstreamBits 18446744073709551615
        { sessionOwnChild with dynFileMethod := 2 }
        (some (['3'] ++ '.' :: ['7'] ++ ".0-generic".toList))
        = GateResult.passed
    ∧ arch_archInit_kernelGate upstreamBits 18446744073709551615
        { sessionOwnChild with dynFileMethod := 32 } (some (['4'] ++ '.' :: ['0'] ++ []))
        = GateResult.tooOld
    ∧ arch_archInit_kernelGate upstreamBits 18446744073709551615
        { sessionOwnChild with dynFileMethod := 32 }
        (some (['4'] ++ '.' :: ['1'] ++ ['.', '0']))
        = GateResult.passed :=
  ⟨(arch_archInit_kernelGate_spec upstreamBits 18446744073709551615
      { sessionOwnChild with dynFileMethod := 2 } ['3'] ['6'] [] (by decide) (by decide)
      (by decide) (by decide) (by decide)).1.mpr (by unfold versionBelow; decide),
    (arch_archInit_kernelGate_spec upstreamBits 18446744073709551615
      { sessionOwnChild with dynFileMethod := 2 } ['3'] ['7'] ".0-generic".toList (by decide)
      (by decide) (by decide) (by decide) (by decide)).2.1 (by unfold versionBelow; decide),
    (arch_archInit_kernelGate_spec upstreamBits 18446744073709551615
      { sessionOwnChild with dynFileMethod := 32 } ['4'] ['0'] [] (by decide) (by decide)
      (by decide) (by decide) (by decide)).1.mpr (by unfold versionBelow; decide),
    (arch_archInit_kernelGate_spec upstreamBits 18446744073709551615
      { sessionOwnChild with dynFileMethod := 32 } ['4'] ['1'] ['.', '0'] (by decide)
      (by decide) (by decide) (by decide) (by decide)).2.1 (by unfold versionBelow; decide)⟩


/-! ### After the event loop of `arch_reapChild` -/

/-- Claim C9. After the event loop, with sanitizers enabled and the report file
`workDir/kLOGPREFIX.pid` of the monitored pid present: when a backtrace was
captured the file is unlinked and `arch_ptraceExitAnalyze` is not called; when
none was captured `arch_ptraceExitAnalyze` is called exactly once, for the
monitored pid, and nothing is unlinked. With sanitizers disabled or the file
absent neither happens. The monitored pid is the external pid when one is
configured and the child pid otherwise, and the checked path is the formatted
name whenever that fits the `PATH_MAX` buffer. -/
theorem arch_reapChild_afterLoop_spec (kLOGPREFIX : CStr) (files_exists : CStr → Bool)
    (hfuzz : honggfuzz_t) (fuzzer : fuzzer_t) :
    (hfuzz.enableSanitizers = true →
      files_exists (crashReport kLOGPREFIX hfuzz fuzzer) = true → fuzzer.backtrace ≠ 0 →
      arch_reapChild_afterLoop kLOGPREFIX files_exists hfuzz fuzzer
        = [ReapAction.unlink (crashReport kLOGPREFIX hfuzz fuzzer), ReapAction.perfAnalyze,
            ReapAction.sancovAnalyze])
    ∧ (hfuzz.enableSanitizers = true →
      files_exists (crashReport kLOGPREFIX hfuzz fuzzer) = true → fuzzer.backtrace = 0 →
      arch_reapChild_afterLoop kLOGPREFIX files_exists hfuzz fuzzer
        = [ReapAction.ptraceExitAnalyze (ptracePidOf hfuzz fuzzer), ReapAction.perfAnalyze,
            ReapAction.sancovAnalyze])
    ∧ (hfuzz.enableSanitizers = false
        ∨ files_exists (crashReport kLOGPREFIX hfuzz fuzzer) = false →
      arch_reapChild_afterLoop kLOGPREFIX files_exists hfuzz fuzzer
        = [ReapAction.perfAnalyze, ReapAction.sancovAnalyze])
    ∧ (hfuzz.linux_pid > 0 → ptracePidOf hfuzz fuzzer = hfuzz.linux_pid)
    ∧ (¬ hfuzz.linux_pid > 0 → ptracePidOf hfuzz fuzzer = fuzzer.pid)
    ∧ ((hfuzz.workDir ++ '/' :: kLOGPREFIX ++ '.' :: fmt_d (ptracePidOf hfuzz fuzzer)).length
          < PATH_MAX →
      crashReport kLOGPREFIX hfuzz fuzzer
        = hfuzz.workDir ++ '/' :: kLOGPREFIX ++ '.' :: fmt_d (ptracePidOf hfuzz fuzzer)) := by
  refine ⟨fun hs he hb => ?_, fun hs he hb => ?_, fun h => ?_,
    ptracePidOf_external hfuzz fuzzer, ptracePidOf_own hfuzz fuzzer, fun hlen => ?_⟩
  · simp [arch_reapChild_afterLoop, hs, he, hb]
  · simp [arch_reapChild_afterLoop, hs, he, hb]
  · rcases h with h | h
    · simp [arch_reapChild_afterLoop, h]
    · simp [arch_reapChild_afterLoop, h]
  · unfold crashReport snprintf
    rw [if_neg (by decide)]
    apply List.take_of_length_le
    omega

/-- Witness of C9: sanitizers on, the report of the child pid 100 present and a
backtrace captured, so the report is unlinked and no exit analysis is run. -/
theorem arch_reapChild_afterLoop_witness :
    arch_reapChild_afterLoop upstreamLogPrefix reportOf100Exists sessionOwnChild
        { worker100.fuzzer with backtrace := 0xdeadbeef }
      = [ReapAction.unlink "/tmp/work/HF.sanitizer.log.100".toList, ReapAction.perfAnalyze,
          ReapAction.sancovAnalyze] :=
  ((arch_reapChild_afterLoop_spec upstreamLogPrefix reportOf100Exists sessionOwnChild
    { worker100.fuzzer with backtrace := 0xdeadbeef }).1 rfl (by decide) (by decide)).trans
    (by decide)

end Honggfuzz
